import Mathlib

/-!
Verification of the address-value engine of the IPAddress library
(segmented IP/MAC addresses with per-segment value ranges, section-level
prefix lengths, masking, prefix assignment and byte-array ingestion).

The Go sources are embedded shallowly: segment values are natural numbers,
a segment is a record of a lower value, an upper value and an optional
per-segment prefix length, and every fallible operation returns `Except`.
Functions translated directly from the Go sources carry the source file and
line in their doc comment; functions whose code lives outside the provided
sources (only their callers are present) are modelled from the specification
and say so in a doc comment starting with `Modelled from the spec:`.
-/

set_option autoImplicit false

namespace IPAddr

/-- A segment (an address division): lower value, upper value and an optional
per-segment prefix length.  Mirrors the value content of `AddressDivision`
(values are `SegInt`, prefix lengths are `PrefixLen`). -/
structure AddressDivision where
  lo : Nat
  hi : Nat
  pref : Option Nat
deriving Repr, DecidableEq

/-! ## C7: createSegments (ipsection.go lines 838-868) -/

/-- Translated from the loop body of `createSegments` (ipsection.go:838-868),
for the case where a lower-value provider is supplied (the claim's setting):
`value = lowerValueProvider(i)`; if an upper-value provider is present,
`value2 = upperValueProvider(i)` and `isMultiple` is switched on when
`value2 != value`; otherwise `value2 = value`.  The produced pair is the
`(value, value2)` content of the created segment. -/
def createSegmentsLoop (lower : Nat → Nat) (upper : Option (Nat → Nat)) :
    Nat → Nat → Bool → List (Nat × Nat) × Bool
  | 0, _, isMult => ([], isMult)
  | n + 1, i, isMult =>
    let value := lower i
    let step : Nat × Bool :=
      match upper with
      | some u => (u i, isMult || decide (u i ≠ value))
      | none => (value, isMult)
    let rest := createSegmentsLoop lower upper n (i + 1) step.2
    ((value, step.1) :: rest.1, rest.2)

/-- Translated from `createSegments` (ipsection.go:838-868): builds
`segmentCount` segments from the providers, returning the `(low, upper)`
pairs together with the accumulated `isMultiple` flag. -/
def createSegments (lower : Nat → Nat) (upper : Option (Nat → Nat))
    (segmentCount : Nat) : List (Nat × Nat) × Bool :=
  createSegmentsLoop lower upper segmentCount 0 false

/-! ## C10: the exported-IPType copy of cachedAddressProvider.getCachedAddresses
(src/unnamed/part_000 lines 2248-2270) -/

/-- A Go panic caused by calling a nil function value. -/
inductive GoFault where
  | nilFunctionCall
deriving Repr, DecidableEq

/-- The cache state of the exported-IPType copy of `cachedAddressProvider`:
two lazily published address slots and an optional creator function
(`addressCreator func() (address, hostAddress *IPAddress)`; nil pointers are
`none`). -/
structure CachedAddressProvider (A : Type) where
  address : Option A
  hostAddress : Option A
  addressCreator : Option (Unit → Option A × Option A)

/-- Translated from the exported-IPType copy of `getCachedAddresses`
(src/unnamed/part_000:2248-2270).  The source reads

  if cached.addressCreator == nil \x7b
      address, hostAddress = cached.addressCreator()
      ... atomic stores into cached.address / cached.hostAddress ...
  \x7d
  return

so the creator is invoked exactly when it is nil (a nil function call, a
run-time fault, modelled as `Except.error`); when the creator is non-nil the
body is skipped and the nil named return values come back with the provider
unchanged. -/
def getCachedAddresses {A : Type} (cached : CachedAddressProvider A) :
    Except GoFault (Option A × Option A × CachedAddressProvider A) :=
  match cached.addressCreator with
  | none => .error .nilFunctionCall
  | some _ => .ok (none, none, cached)

/-! ## C4: checkForPrefixMask (ipsection.go lines 126-196) -/

/-- The four scanning flags and the transition bookkeeping of
`checkForPrefixMask` (ipsection.go:132-135). -/
structure MaskCheckState where
  networkFront : Bool
  networkBack : Bool
  hostFront : Bool
  hostBack : Bool
  prefixedSeg : Nat
  prefixedSegPrefixLen : Nat
deriving Repr, DecidableEq

/-- Modelled from the spec: the segment-level `check_for_prefix_mask` (§4.1)
classifies a single value whose bits are all ones then all zeros as a
network-mask segment, yielding the count of leading ones.  (The segment
method is not among the provided sources; only its caller is.) -/
def segNetworkMaskLen (bits val : Nat) : Option Nat :=
  (List.range (bits + 1)).find? (fun k => val == 2 ^ bits - 2 ^ (bits - k))

/-- Modelled from the spec: the segment-level `check_for_prefix_mask` (§4.1)
classifies a single value whose bits are all zeros then all ones as a
host-mask segment; the returned length is the per-segment prefix length
(the count of leading zeros), which the section combines into a full
host-mask length. -/
def segHostMaskLen (bits val : Nat) : Option Nat :=
  ((List.range (bits + 1)).find? (fun j => val == 2 ^ j - 1)).map (fun j => bits - j)

/-- Translated from the scanning loop of `checkForPrefixMask`
(ipsection.go:137-179); `none` is the early `return` with no masks found,
`vals` are the (lower) segment values. -/
def checkLoop (bits maxVal : Nat) : List Nat → Nat → MaskCheckState → Option MaskCheckState
  | [], _, st => some st
  | val :: rest, i, st =>
    if val = 0 then
      if st.networkFront then
        checkLoop bits maxVal rest (i + 1)
          { st with prefixedSeg := i, networkFront := false, networkBack := true, hostBack := false }
      else if !st.hostFront && !st.networkBack then none
      else checkLoop bits maxVal rest (i + 1) { st with hostBack := false }
    else if val = maxVal then
      if st.hostFront then
        checkLoop bits maxVal rest (i + 1)
          { st with prefixedSeg := i, hostFront := false, hostBack := true, networkBack := false }
      else if !st.hostBack && !st.networkFront then none
      else checkLoop bits maxVal rest (i + 1) { st with networkBack := false }
    else
      match segNetworkMaskLen bits val with
      | some k =>
        if st.networkFront then
          checkLoop bits maxVal rest (i + 1)
            { st with prefixedSegPrefixLen := k, networkBack := true, prefixedSeg := i, networkFront := false, hostFront := false }
        else none
      | none =>
        match segHostMaskLen bits val with
        | some k =>
          if st.hostFront then
            checkLoop bits maxVal rest (i + 1)
              { st with prefixedSegPrefixLen := k, hostBack := true, prefixedSeg := i, networkFront := false, hostFront := false }
          else none
        | none => none

/-- Modelled from the spec: `getNetworkPrefixLength(bitsPerSegment,
segmentPrefixLength, segmentIndex)` combines a per-segment prefix length at
a segment index into a section prefix length (the helper itself is not among
the provided sources). -/
def getNetworkPrefixLength (bitsPerSegment segPrefLen segIndex : Nat) : Nat :=
  bitsPerSegment * segIndex + segPrefLen

/-- Translated from `checkForPrefixMask` (ipsection.go:126-196): runs the
scanning loop from the initial flags `(networkFront, hostFront) = (true,
true)` and assembles `(networkMaskLen, hostMaskLen)` from the final flags;
an empty section yields `(none, none)`. -/
def checkForPrefixMask (bits : Nat) (vals : List Nat) : Option Nat × Option Nat :=
  if vals.isEmpty then (none, none)
  else
    let maxVal := 2 ^ bits - 1
    match checkLoop bits maxVal vals 0 ⟨true, false, true, false, 0, 0⟩ with
    | none => (none, none)
    | some st =>
      if st.networkFront then (some (vals.length * bits), some 0)
      else if st.hostFront then (some 0, some (vals.length * bits))
      else if st.networkBack then
        (some (getNetworkPrefixLength bits st.prefixedSegPrefixLen st.prefixedSeg), none)
      else if st.hostBack then
        (none, some (getNetworkPrefixLength bits st.prefixedSegPrefixLen st.prefixedSeg))
      else (none, none)

/-! ## C1: masking over ranges (ipsection.go `mask` lines 258-273 and
`getSubnetSegments` lines 870-946) -/

/-- The set of masked values `x AND m` for `x` ranging over `[a, b]`,
as a list. -/
def maskImage (a b m : Nat) : List Nat :=
  (List.range (b + 1 - a)).map (fun x => (a + x) &&& m)

/-- Whether the masked image of `[a, b]` under `m` is a contiguous range:
every value between its minimum and its maximum is attained. -/
def imageIsContiguous (a b m : Nat) : Bool :=
  let img := maskImage a b m
  let lo := img.foldl Nat.min (a &&& m)
  let hi := img.foldl Nat.max 0
  (List.range' lo (hi + 1 - lo)).all (fun v => img.contains v)

/-- Modelled from the spec: the sequentiality test of `maskRange` (§4.4; the
masker itself is not among the provided sources, only its caller
`getSubnetSegments` is).  A full-range segment is always sequential; any
other range is sequential exactly when its masked image is contiguous. -/
def maskerIsSequential (a b m maxVal : Nat) : Bool :=
  if a == 0 && b == maxVal then true else imageIsContiguous a b m

/-- Modelled from the spec: `GetMaskedLower` (§4.4) — a full-range segment
masks to lower bound `0`; otherwise the lower bound is the minimum of the
masked image (the generalized sequential bound). -/
def maskerLower (a b m maxVal : Nat) : Nat :=
  if a == 0 && b == maxVal then 0 else (maskImage a b m).foldl Nat.min (a &&& m)

/-- Modelled from the spec: `GetMaskedUpper` (§4.4) — a full-range segment
masks to upper bound `m`; otherwise the upper bound is the maximum of the
masked image. -/
def maskerUpper (a b m maxVal : Nat) : Nat :=
  if a == 0 && b == maxVal then m else (maskImage a b m).foldl Nat.max 0

/-- Error kinds of the section-level mask operation: `sizeMismatch` is the
`sizeMismatchException` of `mask` (ipsection.go:260) and
`maskRangeIncompatible` the `incompatibleAddressException` with key
`ipaddress.error.maskMismatch` of `getSubnetSegments` (ipsection.go:900). -/
inductive IPSectionError where
  | sizeMismatch
  | maskRangeIncompatible
deriving Repr, DecidableEq

/-- Translated from the per-segment loop of `getSubnetSegments`
(ipsection.go:886-943) with `verifyMask = true` and no prefix length: each
segment's range is checked against the mask's (lower) value; the first
non-sequential masked range aborts with `maskRangeIncompatible`, otherwise
the masked bounds are emitted.  (The source's two-loop structure only
preserves object identity when nothing changes; the produced segment values
are the same.) -/
def maskLoop (maxVal : Nat) :
    List (Nat × Nat) → List Nat → Except IPSectionError (List (Nat × Nat))
  | [], _ => .ok []
  | _ :: _, [] => .ok []
  | (a, b) :: segs, m :: ms =>
    if maskerIsSequential a b m maxVal then
      match maskLoop maxVal segs ms with
      | .ok rest => .ok ((maskerLower a b m maxVal, maskerUpper a b m maxVal) :: rest)
      | .error e => .error e
    else .error .maskRangeIncompatible

/-- Translated from `mask` (ipsection.go:258-273) with `retainPrefix =
false` (the plain `Mask` operation): a mask section with fewer segments is a
size mismatch; otherwise each segment is masked with the mask segment's
lower value via `getSubnetSegments`. -/
def maskSection (maxVal : Nat) (sectionSegs other : List (Nat × Nat)) :
    Except IPSectionError (List (Nat × Nat)) :=
  if other.length < sectionSegs.length then .error .sizeMismatch
  else maskLoop maxVal sectionSegs (other.map Prod.fst)

/-! ## C3 and C2: prefix assignment (ipsection.go `assignPrefix` lines
603-641, `applyPrefixToSegments` lines 674-690, `isPrefixSubnetSegs` lines
649-672) -/

/-- Modelled from the spec: the per-segment prefix length induced by a
section prefix `p` (§3.2, §4.3) — a segment fully inside the network part
carries no per-segment prefix, the boundary segment carries the remainder
`p - i*bits`, and host-side segments carry `0`.  (The helper
`getSegmentPrefixLength` is not among the provided sources, only its
callers are.) -/
def getSegmentPrefixLength (bitsPerSegment : Nat) (prefixLength : Option Nat)
    (segmentIndex : Nat) : Option Nat :=
  match prefixLength with
  | none => none
  | some p =>
    if p ≤ bitsPerSegment * segmentIndex then some 0
    else if p ≤ bitsPerSegment * (segmentIndex + 1) then
      some (p - bitsPerSegment * segmentIndex)
    else none

/-- Bit `t` (0 = most significant) of value `v` in a field of `bits` bits. -/
def bitAt (bits v t : Nat) : Nat := (v >>> (bits - 1 - t)) &&& 1

/-- Bit `q` of the concatenated lower values of a section (bit 0 is the most
significant bit of the first segment). -/
def segLoBit (segs : List AddressDivision) (bits q : Nat) : Nat :=
  bitAt bits (segs.getD (q / bits) ⟨0, 0, none⟩).lo (q % bits)

/-- Bit `q` of the concatenated upper values of a section. -/
def segHiBit (segs : List AddressDivision) (bits q : Nat) : Nat :=
  bitAt bits (segs.getD (q / bits) ⟨0, 0, none⟩).hi (q % bits)

/-- Modelled from the spec and the source comment on `isPrefixSubnetSegs`
(ipsection.go:643-648): starting from the first host bit of prefix `p`, the
section must be a run of bits that are zero in both bounds followed by a run
of bits that are zero in the lower and one in the upper bound, with at least
one host bit in total.  (`isPrefixSubnet` itself is not among the provided
sources.) -/
def isPrefixSubnetSegs (segs : List AddressDivision) (bits p : Nat) : Bool :=
  let total := segs.length * bits
  let hostBits := List.range' p (total - p)
  let after := hostBits.dropWhile (fun q =>
    segLoBit segs bits q == 0 && segHiBit segs bits q == 0)
  decide (p < total) && after.all (fun q =>
    segLoBit segs bits q == 0 && segHiBit segs bits q == 1)

/-- Modelled from the spec (§3.2, §4.3 step 4): `toPrefixedNetworkDivision`
materializes the host bits — lower host bits become zero, upper host bits
become all ones — and attaches the per-segment prefix. -/
def toPrefixedNetworkDivision (bits : Nat) (seg : AddressDivision) (q : Nat) :
    AddressDivision :=
  let h := bits - q
  { lo := (seg.lo >>> h) <<< h, hi := ((seg.hi >>> h) <<< h) + (2 ^ h - 1), pref := some q }

/-- Modelled from the spec (§4.3 step 5): `toPrefixedDivision` attaches the
per-segment prefix without touching the values. -/
def toPrefixedDivision (_bits : Nat) (seg : AddressDivision) (q : Nat) : AddressDivision :=
  { seg with pref := some q }

/-- Translated from `applyPrefixToSegments` (ipsection.go:674-690): every
segment whose per-segment prefix under the section prefix is non-nil is
replaced by the producer's output; segments fully inside the network part
(nil per-segment prefix) are unchanged. -/
def applyPrefixToSegments (sectionPrefixBits : Nat) (segs : List AddressDivision)
    (bits : Nat) (producer : AddressDivision → Nat → AddressDivision) :
    List AddressDivision :=
  segs.mapIdx (fun i seg =>
    match getSegmentPrefixLength bits (some sectionPrefixBits) i with
    | none => seg
    | some q => producer seg q)

/-- A section: its segments, the recorded section prefix (Go `PrefixLen`, a
possibly negative `BitCount` when present) and the `isMultiple` flag. -/
structure IPSection where
  segs : List AddressDivision
  prefixLength : Option Int
  isMultiple : Bool
deriving Repr, DecidableEq

/-- Translated from `assignPrefix` (ipsection.go:603-641).  `prefixLength`
is the dereferenced requested prefix, `segsPrefLen` the section prefix
already attached to the segments (`res.prefixLength` at entry), `isMult0`
the incoming `res.isMultiple`, `boundaryBits` the section bit count.  The
pair `step1` is `(prefLen, prefixLength)` after the clamping block: the
source updates both the working value and the recorded pointer when the
request exceeds `boundaryBits`, but only the working value when the request
is negative, so a negative request is recorded as-is. -/
def assignPrefix (prefixLength : Int) (segments : List AddressDivision)
    (segsPrefLen : Option Int) (isMult0 singleOnly : Bool)
    (boundaryBits bitsPerSegment : Nat) : IPSection :=
  let step1 : Int × Int :=
    if prefixLength < 0 then (0, prefixLength)
    else if prefixLength > (boundaryBits : Int) then ((boundaryBits : Int), (boundaryBits : Int))
    else (prefixLength, prefixLength)
  if segments.isEmpty then
    { segs := segments, prefixLength := some step1.2, isMultiple := isMult0 }
  else
    let step2 : Int × Int :=
      match segsPrefLen with
      | some sp => if sp < step1.1 then (sp, sp) else step1
      | none => step1
    let p : Nat := step2.1.toNat
    let applyPrefixSubnet := !singleOnly && isPrefixSubnetSegs segments bitsPerSegment p
    let producer := if applyPrefixSubnet then toPrefixedNetworkDivision bitsPerSegment
      else toPrefixedDivision bitsPerSegment
    let segs2 := applyPrefixToSegments p segments bitsPerSegment producer
    let isMult :=
      if applyPrefixSubnet && !isMult0 then
        match segs2.getLast? with
        | some sl => decide (sl.lo ≠ sl.hi)
        | none => isMult0
      else isMult0
    { segs := segs2, prefixLength := some step2.2, isMultiple := isMult }

/-- Modelled from the spec: `count()` — the number of addresses covered by a
section, the product of the per-segment range sizes. -/
def sectionCount (segs : List AddressDivision) : Nat :=
  segs.foldl (fun acc s => acc * (s.hi + 1 - s.lo)) 1

/-- Modelled from the spec (§3.2): the prefix-block condition at prefix `p`
— on every segment carrying a per-segment prefix `q`, the `bits - q` host
bits are zero in the lower and all ones in the upper bound and the network
bits are fixed. -/
def isPrefixBlockAt (segs : List AddressDivision) (bits p : Nat) : Bool :=
  (List.range segs.length).all (fun i =>
    let seg := segs.getD i ⟨0, 0, none⟩
    match getSegmentPrefixLength bits (some p) i with
    | none => true
    | some q =>
      let h := bits - q
      seg.lo % 2 ^ h == 0 && seg.hi % 2 ^ h == 2 ^ h - 1 && seg.lo / 2 ^ h == seg.hi / 2 ^ h)

/-- Modelled from the spec: `to_prefix_block()` — with a recorded prefix,
every prefixed segment is replaced by its prefixed network division (host
bits materialized to the full range); an unprefixed section is returned
unchanged, and `isMultiple` is re-derived from the segments. -/
def toPrefixBlockSection (bits : Nat) (sec : IPSection) : IPSection :=
  match sec.prefixLength with
  | none => sec
  | some p =>
    let segs2 := applyPrefixToSegments p.toNat sec.segs bits (toPrefixedNetworkDivision bits)
    { segs := segs2, prefixLength := some p,
      isMultiple := segs2.any (fun s => s.lo != s.hi) }

/-- The IPv4 section `1.2.3.4` with requested prefix length 24, built the
way the prefixed constructors build it (via `assignPrefix` with no
pre-existing segment prefix). -/
def sectionOneTwoThreeFour : IPSection :=
  assignPrefix 24 [⟨1, 1, none⟩, ⟨2, 2, none⟩, ⟨3, 3, none⟩, ⟨4, 4, none⟩]
    none false false 32 8

/-! ## C5: byte-array ingestion, toSegments (ipsection.go lines 709-798) -/

/-- The `addressValueException` with key `ipaddress.error.exceeds.size`
raised by `toSegments` (the ValueExceedsSize error kind), carrying the
offending byte value. -/
inductive AddressValueError where
  | exceedsSize (val : Nat)
deriving Repr, DecidableEq

/-- Big-endian byte combination — the inner `value <<= 8; value |= byte`
loop of `toSegments` (ipsection.go:788-792). -/
def segBytesValue (bs : List Nat) : Nat :=
  bs.foldl (fun acc b => (acc <<< 8) ||| b) 0

/-- Translated from the per-segment value computation of `toSegments`
(ipsection.go:768-793): segment `s` combines the bytes at positions
`s*bytesPerSegment ..< (s+1)*bytesPerSegment` of the expected-length view;
positions below `missingBytes` are sign-extension bytes — `0xff` when the
first real byte has its top bit set, and `0x00` otherwise (the source skips
the zero bytes, which leaves the same value since the accumulator is still
zero). -/
def toSegmentsSegVal (bytes : List Nat) (startIndex missingBytes : Nat)
    (negExt : Bool) (bytesPerSegment s : Nat) : Nat :=
  segBytesValue ((List.range bytesPerSegment).map (fun t =>
    if s * bytesPerSegment + t < missingBytes then (if negExt then 255 else 0)
    else bytes.getD (startIndex + (s * bytesPerSegment + t) - missingBytes) 0))

/-- Translated from the segment-building loop of `toSegments`
(ipsection.go:767-796): `segmentCount` single-valued segments, each with its
per-segment prefix. -/
def toSegmentsBuild (bytes : List Nat)
    (segmentCount bytesPerSegment bitsPerSegment : Nat)
    (startIndex missingBytes : Nat) (negExt : Bool) (prefixLength : Option Nat) :
    List AddressDivision :=
  (List.range segmentCount).map (fun s =>
    { lo := toSegmentsSegVal bytes startIndex missingBytes negExt bytesPerSegment s,
      hi := toSegmentsSegVal bytes startIndex missingBytes negExt bytesPerSegment s,
      pref := getSegmentPrefixLength bitsPerSegment prefixLength s })

/-- Translated from `toSegments` (ipsection.go:709-798).  When the array is
longer than `expectedByteCount`, the byte adjacent to the retained bytes
(`expectedExtendedValue`) must be `0`, or `0xff` when the top bit of the
first retained byte is set (ipsection.go:744-756), and every earlier excess
byte must equal it (ipsection.go:757-763); both failures raise
`ipaddress.error.exceeds.size` with that byte.  On success the retained
bytes start at `expectedStartIndex` with no missing bytes.  A shorter array
is sign-extended (ipsection.go:768-793). -/
def toSegments (bytes : List Nat)
    (segmentCount bytesPerSegment bitsPerSegment expectedByteCount : Nat)
    (prefixLength : Option Nat) : Except AddressValueError (List AddressDivision) :=
  if expectedByteCount < bytes.length then
    if bytes.getD (bytes.length - expectedByteCount - 1) 0 = 0
        ∨ (bytes.getD (bytes.length - expectedByteCount) 0 >>> 7 ≠ 0
           ∧ bytes.getD (bytes.length - expectedByteCount - 1) 0 = 255) then
      if ∀ b ∈ bytes.take (bytes.length - expectedByteCount - 1),
          b = bytes.getD (bytes.length - expectedByteCount - 1) 0 then
        .ok (toSegmentsBuild bytes segmentCount bytesPerSegment bitsPerSegment
          (bytes.length - expectedByteCount) 0
          (bytes.getD (bytes.length - expectedByteCount) 0 >>> 7 != 0) prefixLength)
      else .error (.exceedsSize (bytes.getD (bytes.length - expectedByteCount - 1) 0))
    else .error (.exceedsSize (bytes.getD (bytes.length - expectedByteCount - 1) 0))
  else
    .ok (toSegmentsBuild bytes segmentCount bytesPerSegment bitsPerSegment 0
      (expectedByteCount - bytes.length) (bytes.getD 0 0 >>> 7 != 0) prefixLength)

/-- The claim's legality predicate for an over-long array: every excess
leading byte is `0x00`, or the top bit of the first retained byte is set and
every excess leading byte is `0xff`. -/
def excessLegal (bytes : List Nat) (expected : Nat) : Prop :=
  (∀ b ∈ bytes.take (bytes.length - expected), b = 0) ∨
    (bytes.getD (bytes.length - expected) 0 >>> 7 ≠ 0 ∧
      ∀ b ∈ bytes.take (bytes.length - expected), b = 255)

/-! ## C6: ToSequentialRange (ipv4addr.go lines 528-534 and
src/unnamed/part_000 lines 609-618) -/

/-- An IPv4 address value: per-segment `(low, high)` pairs and an optional
prefix length. -/
structure IPv4AddrVals where
  segs : List (Nat × Nat)
  prefixLen : Option Nat
deriving Repr, DecidableEq

/-- An IPv6 address value: per-segment `(low, high)` pairs, an optional
prefix length and a zone. -/
structure IPv6AddrVals where
  segs : List (Nat × Nat)
  prefixLen : Option Nat
  zone : String
deriving Repr, DecidableEq

/-- Modelled from the spec: `WithoutPrefixLen` removes the section prefix,
leaving values untouched (the section-level helper is not among the provided
sources). -/
def IPv4AddrVals.withoutPrefixLen (a : IPv4AddrVals) : IPv4AddrVals :=
  { a with prefixLen := none }

/-- Modelled from the spec: `WithoutPrefixLen` for IPv6 — prefix removed,
values and zone untouched. -/
def IPv6AddrVals.withoutPrefixLen (a : IPv6AddrVals) : IPv6AddrVals :=
  { a with prefixLen := none }

/-- Translated from `WithoutZone` (src/unnamed/part_000:602-607): with a
zone present the address is rebuilt from its section (keeping values and
prefix) with `NoZone`; otherwise the address is returned unchanged. -/
def IPv6AddrVals.withoutZone (a : IPv6AddrVals) : IPv6AddrVals :=
  if a.zone ≠ "" then { a with zone := "" } else a

/-- Modelled from the spec: `GetLower` — every segment collapsed to its
lower value; prefix and zone attributes of the receiver are kept. -/
def IPv4AddrVals.getLower (a : IPv4AddrVals) : IPv4AddrVals :=
  { a with segs := a.segs.map (fun p => (p.1, p.1)) }

/-- Modelled from the spec: `GetUpper` for IPv4. -/
def IPv4AddrVals.getUpper (a : IPv4AddrVals) : IPv4AddrVals :=
  { a with segs := a.segs.map (fun p => (p.2, p.2)) }

/-- Modelled from the spec: `GetLower` for IPv6. -/
def IPv6AddrVals.getLower (a : IPv6AddrVals) : IPv6AddrVals :=
  { a with segs := a.segs.map (fun p => (p.1, p.1)) }

/-- Modelled from the spec: `GetUpper` for IPv6. -/
def IPv6AddrVals.getUpper (a : IPv6AddrVals) : IPv6AddrVals :=
  { a with segs := a.segs.map (fun p => (p.2, p.2)) }

/-- Derived `IsMultiple` flag of an address value. -/
def IPv4AddrVals.isMult (a : IPv4AddrVals) : Bool :=
  a.segs.any (fun p => p.1 != p.2)

/-- Derived `IsMultiple` flag of an IPv6 address value. -/
def IPv6AddrVals.isMult (a : IPv6AddrVals) : Bool :=
  a.segs.any (fun p => p.1 != p.2)

/-- A sequential range as `newSeqRangeUnchecked` stores it (modelled from
the spec, §4.7): the lower and upper endpoint addresses plus the
`isMultiple` flag; the unchecked constructor performs no normalization. -/
structure SeqRange (A : Type) where
  lower : A
  upper : A
  isMult : Bool

/-- Translated from `IPv4Address.ToSequentialRange` (ipv4addr.go:528-534)
for a non-nil receiver: strip the prefix, then pass the lower and upper
single addresses to `newSeqRangeUnchecked`. -/
def ipv4ToSequentialRange (a : IPv4AddrVals) : SeqRange IPv4AddrVals :=
  ⟨a.withoutPrefixLen.getLower, a.withoutPrefixLen.getUpper,
    a.withoutPrefixLen.isMult⟩

/-- Translated from `IPv6Address.ToSequentialRange`
(src/unnamed/part_000:609-618) for a non-nil receiver: strip the prefix and
the zone, then pass the lower and upper single addresses to
`newSeqRangeUnchecked`. -/
def ipv6ToSequentialRange (a : IPv6AddrVals) : SeqRange IPv6AddrVals :=
  ⟨(a.withoutPrefixLen.withoutZone).getLower,
    (a.withoutPrefixLen.withoutZone).getUpper,
    (a.withoutPrefixLen.withoutZone).isMult⟩

/-! ## C9: IPv6 Equals and Contains with zones (src/unnamed/part_000 lines
588-596) -/

/-- The address type tag (`addrType`) used for dispatch in `Equals` and
`Contains`. -/
inductive AddrType where
  | ipv4Type
  | ipv6Type
  | macType
  | zeroType
deriving Repr, DecidableEq

/-- A generic address as consumed by `Equals`/`Contains`: its type tag, the
per-segment `(low, high)` values of its section, and its zone. -/
structure GenAddr where
  typ : AddrType
  segs : List (Nat × Nat)
  zone : String
deriving Repr, DecidableEq

/-- Modelled from the spec: `sameCountTypeEquals` — identical segment count
and identical per-segment values (the section method is not among the
provided sources). -/
def sameCountTypeEquals (a other : List (Nat × Nat)) : Bool := a == other

/-- Modelled from the spec: `sameCountTypeContains` — identical segment
count and every segment range of `other` inside the corresponding range of
this section. -/
def sameCountTypeContains (a other : List (Nat × Nat)) : Bool :=
  a.length == other.length &&
    (a.zip other).all (fun p => p.1.1 ≤ p.2.1 && p.2.2 ≤ p.1.2)

/-- Modelled from the spec: `isSameZone` — the zones are identical. -/
def isSameZone (a other : GenAddr) : Bool := a.zone == other.zone

/-- Translated from `IPv6Address.Equals` (src/unnamed/part_000:593-596):
the other address must be of IPv6 type, section-equal, and in the same
zone. -/
def ipv6Equals (a other : GenAddr) : Bool :=
  (other.typ == .ipv6Type) && sameCountTypeEquals a.segs other.segs
    && isSameZone a other

/-- Translated from `IPv6Address.Contains` (src/unnamed/part_000:588-591):
the other address must be of IPv6 type, section-contained, and in the same
zone. -/
def ipv6Contains (a other : GenAddr) : Bool :=
  (other.typ == .ipv6Type) && sameCountTypeContains a.segs other.segs
    && isSameZone a other

/-! ## C8: zero-value addresses and init (ipv4addr.go lines 118-157,
src/unnamed/part_000 lines 190-230) -/

/-- The Go `IPv4Address`: its embedded section pointer, nil on the zero
value. -/
structure IPv4AddressGo where
  sect : Option IPSection
deriving Repr, DecidableEq

/-- Translated from `initZeroIPv4` (ipv4addr.go:118-125): four zero
segments, no prefix. -/
def zeroIPv4Addr : IPv4AddressGo :=
  ⟨some ⟨List.replicate 4 ⟨0, 0, none⟩, none, false⟩⟩

/-- Translated from `IPv4Address.init` (ipv4addr.go:151-157): a nil-section
receiver is replaced by the canonical zero address. -/
def initIPv4 (a : IPv4AddressGo) : IPv4AddressGo :=
  match a.sect with
  | none => zeroIPv4Addr
  | some _ => a

/-- The Go `IPv6Address`: section pointer and zone. -/
structure IPv6AddressGo where
  sect : Option IPSection
  zone : String
deriving Repr, DecidableEq

/-- Translated from `initZeroIPv6` (src/unnamed/part_000:190-197): eight
zero segments, no prefix, no zone. -/
def zeroIPv6Addr : IPv6AddressGo :=
  ⟨some ⟨List.replicate 8 ⟨0, 0, none⟩, none, false⟩, ""⟩

/-- Translated from `IPv6Address.init` (src/unnamed/part_000:225-230). -/
def initIPv6 (a : IPv6AddressGo) : IPv6AddressGo :=
  match a.sect with
  | none => zeroIPv6Addr
  | some _ => a

/-- Translated from `IPv4Address.IsLoopback` (ipv4addr.go:626-630): a nil
section short-circuits to false; otherwise segment 0 must match 127. -/
def ipv4IsLoopback (a : IPv4AddressGo) : Bool :=
  match a.sect with
  | none => false
  | some s =>
    match s.segs.head? with
    | some seg => seg.lo == 127 && seg.hi == 127
    | none => false

/-- Translated from `IPv4Address.IsUnspecified` (ipv4addr.go:615-618):
`addr.section == nil || addr.IsZero()` (IsZero modelled from the spec as
all segments zero). -/
def ipv4IsUnspecified (a : IPv4AddressGo) : Bool :=
  match a.sect with
  | none => true
  | some s => s.segs.all (fun seg => seg.lo == 0 && seg.hi == 0)

/-- Translated from `IPv4Address.IsAnyLocal` (ipv4addr.go:620-624): same
shape as IsUnspecified. -/
def ipv4IsAnyLocal (a : IPv4AddressGo) : Bool :=
  match a.sect with
  | none => true
  | some s => s.segs.all (fun seg => seg.lo == 0 && seg.hi == 0)

/-- Translated from `IPv6Address.IsLoopback` (src/unnamed/part_000:632-646):
a nil section short-circuits to false; otherwise all segments but the last
must be zero and the last must match 1. -/
def ipv6IsLoopback (a : IPv6AddressGo) : Bool :=
  match a.sect with
  | none => false
  | some s =>
    (s.segs.dropLast.all (fun seg => seg.lo == 0 && seg.hi == 0)) &&
      (match s.segs.getLast? with
       | some seg => seg.lo == 1 && seg.hi == 1
       | none => false)

/-! ## Theorems -/

theorem createSegmentsLoop_fst_ind (lower : Nat → Nat) (upper : Option (Nat → Nat)) :
    ∀ (n i : Nat) (b b' : Bool),
      (createSegmentsLoop lower upper n i b).1 = (createSegmentsLoop lower upper n i b').1 := by
  intro n
  induction n with
  | zero => intro i b b'; rfl
  | succ n ih =>
    intro i b b'
    simp only [createSegmentsLoop]
    cases upper with
    | none => simpa using ih (i + 1) b b'
    | some u => simpa using ih (i + 1) _ _

theorem createSegmentsLoop_snd_ind (lower : Nat → Nat) (upper : Option (Nat → Nat)) :
    ∀ (n i : Nat) (b : Bool),
      ((createSegmentsLoop lower upper n i b).2 = true ↔
        (b = true ∨ ∃ p ∈ (createSegmentsLoop lower upper n i b).1, p.2 ≠ p.1)) := by
  intro n
  induction n with
  | zero =>
    intro i b
    simp [createSegmentsLoop]
  | succ n ih =>
    intro i b
    cases upper with
    | none =>
      simp only [createSegmentsLoop]
      rw [ih (i + 1) b]
      simp only [List.mem_cons]
      constructor
      · rintro (hb | ⟨p, hp, hne⟩)
        · exact Or.inl hb
        · exact Or.inr ⟨p, Or.inr hp, hne⟩
      · rintro (hb | ⟨p, hp | hp, hne⟩)
        · exact Or.inl hb
        · subst hp; simp at hne
        · exact Or.inr ⟨p, hp, hne⟩
    | some u =>
      simp only [createSegmentsLoop]
      rw [ih (i + 1) (b || decide (u i ≠ lower i))]
      have hfst := createSegmentsLoop_fst_ind lower (some u) n (i + 1)
        (b || decide (u i ≠ lower i)) b
      rw [hfst]
      simp only [List.mem_cons]
      constructor
      · rintro (hb | ⟨p, hp, hne⟩)
        · rcases Bool.or_eq_true_iff.mp hb with hb | hd
          · exact Or.inl hb
          · exact Or.inr ⟨(lower i, u i), Or.inl rfl, by
              simpa using of_decide_eq_true hd⟩
        · exact Or.inr ⟨p, Or.inr hp, hne⟩
      · rintro (hb | ⟨p, hp | hp, hne⟩)
        · exact Or.inl (Bool.or_eq_true_iff.mpr (Or.inl hb))
        · subst hp
          exact Or.inl (Bool.or_eq_true_iff.mpr (Or.inr (by simpa using hne)))
        · exact Or.inr ⟨p, hp, hne⟩

/-- C7: for a section built from a per-segment lower-value provider and an
optional upper-value provider via `createSegments`, the resulting
`isMultiple` flag is `true` exactly when some produced segment has an upper
value different from its lower value; and when no upper-value provider is
supplied, every produced segment is single-valued and `isMultiple` is
`false`. -/
theorem createSegments_isMultiple_iff (lower : Nat → Nat)
    (upper : Option (Nat → Nat)) (segmentCount : Nat) :
    ((createSegments lower upper segmentCount).2 = true ↔
      ∃ p ∈ (createSegments lower upper segmentCount).1, p.2 ≠ p.1)
    ∧ (upper = none →
        (createSegments lower upper segmentCount).2 = false ∧
        ∀ p ∈ (createSegments lower upper segmentCount).1, p.2 = p.1) := by
  constructor
  · rw [createSegments, createSegmentsLoop_snd_ind lower upper segmentCount 0 false]
    simp
  · intro hup
    subst hup
    constructor
    · rw [createSegments]
      by_contra h
      have h2 := (createSegmentsLoop_snd_ind lower none segmentCount 0 false).mp
        (by simpa using h)
      rcases h2 with h2 | ⟨p, hp, hne⟩
      · exact absurd h2 (by simp)
      · -- with no upper provider every produced pair is diagonal
        have : ∀ n i b, ∀ q ∈ (createSegmentsLoop lower none n i b).1, q.2 = q.1 := by
          intro n
          induction n with
          | zero => intro i b q hq; simp [createSegmentsLoop] at hq
          | succ n ih =>
            intro i b q hq
            simp only [createSegmentsLoop] at hq
            rcases List.mem_cons.mp hq with hq | hq
            · subst hq; rfl
            · exact ih (i + 1) b q hq
        exact hne (this segmentCount 0 false p hp)
    · intro p hp
      have : ∀ n i b, ∀ q ∈ (createSegmentsLoop lower none n i b).1, q.2 = q.1 := by
        intro n
        induction n with
        | zero => intro i b q hq; simp [createSegmentsLoop] at hq
        | succ n ih =>
          intro i b q hq
          simp only [createSegmentsLoop] at hq
          rcases List.mem_cons.mp hq with hq | hq
          · subst hq; rfl
          · exact ih (i + 1) b q hq
      exact this segmentCount 0 false p hp

/-- C7 witness: with no upper-value provider a three-segment section is
single-valued; with an upper-value provider exceeding the lower by one the
section is multiple. -/
theorem createSegments_isMultiple_iff_witness :
    (createSegments (fun i => i) none 3).2 = false
    ∧ (createSegments (fun i => i) (some (fun i => i + 1)) 2).2 = true :=
  ⟨((createSegments_isMultiple_iff (fun i => i) none 3).2 rfl).1,
   (createSegments_isMultiple_iff (fun i => i) (some (fun i => i + 1)) 2).1.mpr
     ⟨(0, 1), by decide, by decide⟩⟩

/-- C10: in the exported-IPType copy of `cachedAddressProvider`,
`getCachedAddresses` invokes the stored creator only when that function is
nil; so any call finding no cached addresses either faults on a nil function
value (creator absent) or returns nil addresses leaving the cache unchanged
(creator present). -/
theorem getCachedAddresses_inverted_guard {A : Type}
    (cached : CachedAddressProvider A) :
    (cached.addressCreator = none →
      getCachedAddresses cached = .error .nilFunctionCall)
    ∧ (∀ f, cached.addressCreator = some f →
        getCachedAddresses cached = .ok (none, none, cached)) := by
  constructor
  · intro h
    simp [getCachedAddresses, h]
  · intro f h
    simp [getCachedAddresses, h]

/-- C10 witness: both branches at concrete providers over `Nat`. -/
theorem getCachedAddresses_inverted_guard_witness :
    getCachedAddresses (⟨none, none, none⟩ : CachedAddressProvider Nat) =
        .error .nilFunctionCall
    ∧ getCachedAddresses
        (⟨none, none, some (fun _ => (some 7, some 7))⟩ : CachedAddressProvider Nat) =
        .ok (none, none, ⟨none, none, some (fun _ => (some 7, some 7))⟩) :=
  ⟨(getCachedAddresses_inverted_guard ⟨none, none, none⟩).1 rfl,
   (getCachedAddresses_inverted_guard
      ⟨none, none, some (fun _ => (some 7, some 7))⟩).2 _ rfl⟩

theorem checkLoop_zeros (bits maxVal : Nat) :
    ∀ (vals : List Nat), (∀ v ∈ vals, v = 0) → ∀ (i ps pl : Nat),
      checkLoop bits maxVal vals i ⟨false, true, true, false, ps, pl⟩ =
        some ⟨false, true, true, false, ps, pl⟩ := by
  intro vals
  induction vals with
  | nil => intro _ i ps pl; rfl
  | cons v rest ih =>
    intro h i ps pl
    have hv : v = 0 := h v (List.mem_cons_self _ _)
    subst hv
    simp only [checkLoop, if_pos rfl]
    exact ih (fun w hw => h w (List.mem_cons_of_mem _ hw)) (i + 1) ps pl

theorem checkLoop_maxes (bits maxVal : Nat) (hm : maxVal ≠ 0) :
    ∀ (vals : List Nat), (∀ v ∈ vals, v = maxVal) → ∀ (i ps pl : Nat),
      checkLoop bits maxVal vals i ⟨true, false, false, true, ps, pl⟩ =
        some ⟨true, false, false, true, ps, pl⟩ := by
  intro vals
  induction vals with
  | nil => intro _ i ps pl; rfl
  | cons v rest ih =>
    intro h i ps pl
    have hv : v = maxVal := h v (List.mem_cons_self _ _)
    subst hv
    simp only [checkLoop, if_neg hm, if_pos rfl]
    exact ih (fun w hw => h w (List.mem_cons_of_mem _ hw)) (i + 1) ps pl

/-- C4: `checkForPrefixMask` on a non-empty section of all-zero segments
returns `host_mask_len = total_bits` and `network_mask_len = 0`; on a
section of all max-valued segments it returns the converse; and on every
section it never returns a nonzero network mask length together with a
nonzero host mask length. -/
theorem checkForPrefixMask_spec (bits : Nat) (hb : 0 < bits) (vals : List Nat) :
    (vals ≠ [] → (∀ v ∈ vals, v = 0) →
      checkForPrefixMask bits vals = (some 0, some (vals.length * bits)))
    ∧ (vals ≠ [] → (∀ v ∈ vals, v = 2 ^ bits - 1) →
      checkForPrefixMask bits vals = (some (vals.length * bits), some 0))
    ∧ (∀ n h, checkForPrefixMask bits vals = (some n, some h) → n = 0 ∨ h = 0) := by
  have hmax : 2 ^ bits - 1 ≠ 0 := by
    have h2 : 2 ^ 1 ≤ 2 ^ bits := Nat.pow_le_pow_right (by norm_num) hb
    omega
  refine ⟨?_, ?_, ?_⟩
  · intro hne hz
    cases vals with
    | nil => exact absurd rfl hne
    | cons v rest =>
      have hv : v = 0 := hz v (List.mem_cons_self _ _)
      subst hv
      simp only [checkForPrefixMask, List.isEmpty_cons, Bool.false_eq_true, if_false]
      rw [show checkLoop bits (2 ^ bits - 1) (0 :: rest) 0 ⟨true, false, true, false, 0, 0⟩ =
          checkLoop bits (2 ^ bits - 1) rest 1 ⟨false, true, true, false, 0, 0⟩ from by
        simp [checkLoop]]
      rw [checkLoop_zeros bits (2 ^ bits - 1) rest
        (fun w hw => hz w (List.mem_cons_of_mem _ hw)) 1 0 0]
      rfl
  · intro hne hz
    cases vals with
    | nil => exact absurd rfl hne
    | cons v rest =>
      have hv : v = 2 ^ bits - 1 := hz v (List.mem_cons_self _ _)
      subst hv
      simp only [checkForPrefixMask, List.isEmpty_cons, Bool.false_eq_true, if_false]
      rw [show checkLoop bits (2 ^ bits - 1) ((2 ^ bits - 1) :: rest) 0
            ⟨true, false, true, false, 0, 0⟩ =
          checkLoop bits (2 ^ bits - 1) rest 1 ⟨true, false, false, true, 0, 0⟩ from by
        simp [checkLoop, if_neg hmax]]
      rw [checkLoop_maxes bits (2 ^ bits - 1) hmax rest
        (fun w hw => hz w (List.mem_cons_of_mem _ hw)) 1 0 0]
      rfl
  · intro n h
    unfold checkForPrefixMask
    by_cases he : vals.isEmpty
    · simp [he]
    · simp only [he, Bool.false_eq_true, if_false]
      cases hloop : checkLoop bits (2 ^ bits - 1) vals 0 ⟨true, false, true, false, 0, 0⟩ with
      | none => intro hcon; simp at hcon
      | some st =>
        by_cases h1 : st.networkFront
        · simp only [h1, if_pos]
          intro hcon
          have hsnd := congrArg (fun p => p.2) hcon
          simp at hsnd
          omega
        · by_cases h2 : st.hostFront
          · simp only [h1, if_false, h2, if_pos]
            intro hcon
            have hfst := congrArg (fun p => p.1) hcon
            simp at hfst
            omega
          · by_cases h3 : st.networkBack
            · simp only [h1, if_false, h2, h3, if_pos]
              intro hcon
              have := congrArg (fun p => p.2) hcon
              simp at this
            · by_cases h4 : st.hostBack
              · simp only [h1, if_false, h2, h3, h4, if_pos]
                intro hcon
                have := congrArg (fun p => p.1) hcon
                simp at this
              · simp only [h1, if_false, h2, h3, h4]
                intro hcon
                have := congrArg (fun p => p.1) hcon
                simp at this

/-- C4 witness: the all-zeros and all-ones IPv4 sections, and the
two-way result of the all-zeros section has a zero network length. -/
theorem checkForPrefixMask_spec_witness :
    checkForPrefixMask 8 [0, 0, 0, 0] = (some 0, some 32)
    ∧ checkForPrefixMask 8 [255, 255, 255, 255] = (some 32, some 0)
    ∧ ((0 : Nat) = 0 ∨ (32 : Nat) = 0) := by
  refine ⟨?_, ?_, Or.inl rfl⟩
  · have h := (checkForPrefixMask_spec 8 (by decide) [0, 0, 0, 0]).1
      (by decide) (by decide)
    simpa using h
  · have h := (checkForPrefixMask_spec 8 (by decide) [255, 255, 255, 255]).2.1
      (by decide) (by decide)
    simpa using h

theorem maskLoop_error_eq (maxVal : Nat) :
    ∀ (segs : List (Nat × Nat)) (ms : List Nat) (e : IPSectionError),
      maskLoop maxVal segs ms = .error e → e = .maskRangeIncompatible := by
  intro segs
  induction segs with
  | nil => intro ms e h; simp [maskLoop] at h
  | cons p segs ih =>
    intro ms e h
    obtain ⟨a, b⟩ := p
    cases ms with
    | nil => simp [maskLoop] at h
    | cons m ms =>
      simp only [maskLoop] at h
      by_cases hseq : maskerIsSequential a b m maxVal = true
      · rw [if_pos hseq] at h
        cases hrec : maskLoop maxVal segs ms with
        | ok rest => rw [hrec] at h; simp at h
        | error e2 =>
          rw [hrec] at h
          simp only [Except.error.injEq] at h
          exact h ▸ ih ms e2 hrec
      · rw [if_neg hseq] at h
        simpa using h.symm

theorem maskLoop_spec (maxVal : Nat) :
    ∀ (segs : List (Nat × Nat)) (ms : List Nat), segs.length ≤ ms.length →
      ((maskLoop maxVal segs ms = .error .maskRangeIncompatible ↔
        ∃ pm ∈ segs.zip ms, maskerIsSequential pm.1.1 pm.1.2 pm.2 maxVal = false)
      ∧ ((∀ pm ∈ segs.zip ms, maskerIsSequential pm.1.1 pm.1.2 pm.2 maxVal = true) →
        maskLoop maxVal segs ms = .ok ((segs.zip ms).map
          (fun pm => (maskerLower pm.1.1 pm.1.2 pm.2 maxVal,
            maskerUpper pm.1.1 pm.1.2 pm.2 maxVal))))) := by
  intro segs
  induction segs with
  | nil =>
    intro ms _
    constructor
    · simp [maskLoop]
    · intro _; simp [maskLoop]
  | cons p segs ih =>
    intro ms hlen
    obtain ⟨a, b⟩ := p
    cases ms with
    | nil => simp at hlen
    | cons m ms =>
      have hlen' : segs.length ≤ ms.length := by simpa using hlen
      obtain ⟨ihiff, ihok⟩ := ih ms hlen'
      by_cases hseq : maskerIsSequential a b m maxVal = true
      · constructor
        · simp only [maskLoop, if_pos hseq]
          cases hrec : maskLoop maxVal segs ms with
          | ok rest =>
            simp only [List.zip_cons_cons, List.mem_cons]
            constructor
            · intro hcon; simp at hcon
            · rintro ⟨pm, hpm | hpm, hbad⟩
              · subst hpm; simp only at hbad; rw [hseq] at hbad; simp at hbad
              · have := ihiff.mpr ⟨pm, hpm, hbad⟩
                rw [hrec] at this; simp at this
          | error e2 =>
            have he2 := maskLoop_error_eq maxVal segs ms e2 hrec
            subst he2
            simp only [List.zip_cons_cons, List.mem_cons]
            constructor
            · intro _
              obtain ⟨pm, hpm, hbad⟩ := ihiff.mp hrec
              exact ⟨pm, Or.inr hpm, hbad⟩
            · intro _; trivial
        · intro hall
          have htail : ∀ pm ∈ segs.zip ms, maskerIsSequential pm.1.1 pm.1.2 pm.2 maxVal = true := by
            intro pm hpm
            exact hall pm (by simp [List.zip_cons_cons, List.mem_cons, hpm])
          simp only [maskLoop, if_pos hseq, ihok htail, List.zip_cons_cons, List.map_cons]
      · constructor
        · simp only [maskLoop, if_neg hseq]
          constructor
          · intro _
            exact ⟨((a, b), m), by simp [List.zip_cons_cons],
              by simpa using hseq⟩
          · intro _; trivial
        · intro hall
          exact absurd (hall ((a, b), m) (by simp [List.zip_cons_cons])) hseq

set_option maxRecDepth 40000 in
/-- C1 counterexample: masking the full-range IPv4 segment `0-255` with the
gappy mask `129` succeeds, producing the bounds `0-129`, although the masked
image `\x7bx AND 129\x7d = \x7b0, 1, 128, 129\x7d` is not a contiguous
range — refuting the claim that the mask operation fails with
`MaskRangeIncompatible` exactly when some segment's masked image is not
contiguous. -/
theorem maskSection_claim_counterexample :
    maskSection 255 [(0, 255)] [(129, 129)] = .ok [(0, 129)]
    ∧ imageIsContiguous 0 255 129 = false := by
  constructor
  · rfl
  · decide

/-- C1 (amended): `mask(section, mask_section)` on sections of equal segment
count fails with `MaskRangeIncompatible` exactly when some segment is
neither full-range nor has a contiguous masked image (a full-range segment
is always masked sequentially, to `[0, m]`); otherwise it succeeds with each
result segment holding the sequential masked bounds.  In particular
`mask(1.2.3.4-1.2.3.200, 255.255.255.240)` fails while
`mask(1.2.3.0-1.2.3.255, 255.255.255.0)` yields `1.2.3.0` (see the
witness). -/
theorem maskSection_spec (maxVal : Nat) (segs other : List (Nat × Nat))
    (h : segs.length ≤ other.length) :
    (maskSection maxVal segs other = .error .maskRangeIncompatible ↔
      ∃ pm ∈ segs.zip (other.map Prod.fst),
        maskerIsSequential pm.1.1 pm.1.2 pm.2 maxVal = false)
    ∧ ((∀ pm ∈ segs.zip (other.map Prod.fst),
          maskerIsSequential pm.1.1 pm.1.2 pm.2 maxVal = true) →
        maskSection maxVal segs other =
          .ok ((segs.zip (other.map Prod.fst)).map
            (fun pm => (maskerLower pm.1.1 pm.1.2 pm.2 maxVal,
              maskerUpper pm.1.1 pm.1.2 pm.2 maxVal)))) := by
  have hnot : ¬ other.length < segs.length := by omega
  have hlen : segs.length ≤ (other.map Prod.fst).length := by simpa using h
  obtain ⟨hiff, hok⟩ := maskLoop_spec maxVal segs (other.map Prod.fst) hlen
  constructor
  · rw [maskSection, if_neg hnot]
    exact hiff
  · intro hall
    rw [maskSection, if_neg hnot]
    exact hok hall

set_option maxRecDepth 40000 in
/-- C1 witness: the two concrete scenarios of the claim, derived from the
amended theorem — `1.2.3.4-1.2.3.200 mask 255.255.255.240` fails with
`MaskRangeIncompatible`, and `1.2.3.0-1.2.3.255 mask 255.255.255.0` yields
`1.2.3.0`. -/
theorem maskSection_spec_witness :
    maskSection 255 [(1, 1), (2, 2), (3, 3), (4, 200)]
        [(255, 255), (255, 255), (255, 255), (240, 240)] =
      .error .maskRangeIncompatible
    ∧ maskSection 255 [(1, 1), (2, 2), (3, 3), (0, 255)]
        [(255, 255), (255, 255), (255, 255), (0, 0)] =
      .ok [(1, 1), (2, 2), (3, 3), (0, 0)] := by
  constructor
  · exact (maskSection_spec 255 [(1, 1), (2, 2), (3, 3), (4, 200)]
      [(255, 255), (255, 255), (255, 255), (240, 240)] (by decide)).1.mpr
      ⟨((4, 200), 240), by decide, by decide⟩
  · have h := (maskSection_spec 255 [(1, 1), (2, 2), (3, 3), (0, 255)]
      [(255, 255), (255, 255), (255, 255), (0, 0)] (by decide)).2 (by decide)
    rw [h]
    exact congrArg Except.ok (by decide)

/-- C3 counterexample: requesting prefix length `-1` on a one-segment
section records `-1` itself — not the value clamped to `[0, total_bits]`
(which would be `0`) the claim requires. -/
theorem assignPrefix_claim_counterexample :
    (assignPrefix (-1) [⟨4, 4, none⟩] none false false 8 8).prefixLength = some (-1)
    ∧ (assignPrefix (-1) [⟨4, 4, none⟩] none false false 8 8).prefixLength ≠ some 0 := by
  constructor
  · decide
  · decide

/-- C3 (amended): the recorded section prefix equals the requested value
clamped above to `total_bits`; a negative requested value is recorded as-is
(only the segment-level computation treats it as `0`); and when the
segments already carry a section prefix shorter than the clamped working
value, that pre-existing prefix is adopted instead. -/
theorem assignPrefix_recorded (prefixLength : Int) (segments : List AddressDivision)
    (segsPrefLen : Option Int) (isMult0 singleOnly : Bool)
    (boundaryBits bitsPerSegment : Nat) :
    (assignPrefix prefixLength segments segsPrefLen isMult0 singleOnly
        boundaryBits bitsPerSegment).prefixLength =
      some (
        let base : Int := if prefixLength > (boundaryBits : Int) then (boundaryBits : Int)
          else prefixLength
        let clamped : Int := if prefixLength < 0 then 0 else base
        if segments.isEmpty then base
        else match segsPrefLen with
          | some sp => if sp < clamped then sp else base
          | none => base) := by
  simp only [assignPrefix]
  by_cases hneg : prefixLength < 0
  · have hgt : ¬ prefixLength > (boundaryBits : Int) := by omega
    simp only [if_pos hneg, if_neg hgt]
    by_cases hemp : segments.isEmpty
    · simp [hemp]
    · simp only [hemp, Bool.false_eq_true, if_false]
      cases segsPrefLen with
      | none => simp
      | some sp => by_cases hsp : sp < 0 <;> simp [hsp]
  · simp only [if_neg hneg]
    by_cases hgt : prefixLength > (boundaryBits : Int)
    · simp only [if_pos hgt]
      by_cases hemp : segments.isEmpty
      · simp [hemp]
      · simp only [hemp, Bool.false_eq_true, if_false]
        cases segsPrefLen with
        | none => simp
        | some sp => by_cases hsp : sp < (boundaryBits : Int) <;> simp [hsp]
    · simp only [if_neg hgt]
      by_cases hemp : segments.isEmpty
      · simp [hemp]
      · simp only [hemp, Bool.false_eq_true, if_false]
        cases segsPrefLen with
        | none => simp
        | some sp => by_cases hsp : sp < prefixLength <;> simp [hsp]

/-- C2: `1.2.3.4/24` has recorded prefix 24, is not a prefix block and has
`count() = 1`; `to_prefix_block()` yields `1.2.3.0/24` — the host segment
materialized to `0-255` — with `count() = 256`, and that result is a prefix
block: carrying a prefix length does not by itself make a section a prefix
block. -/
theorem ipv4_prefix24_not_block :
    sectionOneTwoThreeFour.prefixLength = some 24
    ∧ isPrefixBlockAt sectionOneTwoThreeFour.segs 8 24 = false
    ∧ sectionCount sectionOneTwoThreeFour.segs = 1
    ∧ (toPrefixBlockSection 8 sectionOneTwoThreeFour).segs =
        [⟨1, 1, none⟩, ⟨2, 2, none⟩, ⟨3, 3, some 8⟩, ⟨0, 255, some 0⟩]
    ∧ (toPrefixBlockSection 8 sectionOneTwoThreeFour).prefixLength = some 24
    ∧ sectionCount (toPrefixBlockSection 8 sectionOneTwoThreeFour).segs = 256
    ∧ isPrefixBlockAt (toPrefixBlockSection 8 sectionOneTwoThreeFour).segs 8 24 = true := by
  refine ⟨by decide, by decide, by decide, by decide, by decide, by decide, by decide⟩

theorem getD_drop_aux : ∀ (l : List Nat) (i j : Nat),
    (l.drop i).getD j 0 = l.getD (i + j) 0 := by
  intro l
  induction l with
  | nil => intro i j; simp [List.drop_nil]
  | cons a l ih =>
    intro i j
    cases i with
    | zero => simp
    | succ i =>
      rw [List.drop_succ_cons, ih i j]
      simp [Nat.succ_add]

theorem take_all_succ_iff (bytes : List Nat) (k : Nat) (hk : k < bytes.length) (c : Nat) :
    ((bytes.getD k 0 = c) ∧ ∀ b ∈ bytes.take k, b = c) ↔
      (∀ b ∈ bytes.take (k + 1), b = c) := by
  have hget : bytes[k]? = some (bytes.getD k 0) := by
    rw [List.getD_eq_getElem?_getD, List.getElem?_eq_getElem hk]
    rfl
  have htake : bytes.take (k + 1) = bytes.take k ++ [bytes.getD k 0] := by
    rw [List.take_succ, hget]
    rfl
  rw [htake]
  constructor
  · rintro ⟨he, hall⟩ b hb
    rcases List.mem_append.mp hb with hb | hb
    · exact hall b hb
    · rw [List.mem_singleton] at hb
      rw [hb]
      exact he
  · intro hall
    constructor
    · exact hall _ (List.mem_append.mpr (Or.inr (by simp)))
    · intro b hb
      exact hall b (List.mem_append.mpr (Or.inl hb))

theorem excess_guard_iff (bytes : List Nat) (E : Nat) (h : E < bytes.length) :
    (((bytes.getD (bytes.length - E - 1) 0 = 0) ∨
       (bytes.getD (bytes.length - E) 0 >>> 7 ≠ 0 ∧
         bytes.getD (bytes.length - E - 1) 0 = 255)) ∧
      (∀ b ∈ bytes.take (bytes.length - E - 1),
        b = bytes.getD (bytes.length - E - 1) 0))
    ↔ excessLegal bytes E := by
  have hk : bytes.length - E - 1 < bytes.length := by omega
  have hsucc : bytes.length - E = bytes.length - E - 1 + 1 := by omega
  unfold excessLegal
  rw [hsucc]
  simp only [Nat.add_sub_cancel]
  rw [← take_all_succ_iff bytes (bytes.length - E - 1) hk 0,
    ← take_all_succ_iff bytes (bytes.length - E - 1) hk 255]
  constructor
  · rintro ⟨hsign | ⟨hmsb, hval⟩, hall⟩
    · exact Or.inl ⟨hsign, fun b hb => (hall b hb).trans hsign⟩
    · exact Or.inr ⟨hmsb, hval, fun b hb => (hall b hb).trans hval⟩
  · rintro (⟨he, hall⟩ | ⟨hmsb, he, hall⟩)
    · exact ⟨Or.inl he, fun b hb => (hall b hb).trans he.symm⟩
    · exact ⟨Or.inr ⟨hmsb, he⟩, fun b hb => (hall b hb).trans he.symm⟩

theorem toSegmentsBuild_drop (bytes : List Nat)
    (segmentCount bytesPerSegment bitsPerSegment start : Nat) (negExt : Bool)
    (prefixLength : Option Nat) :
    toSegmentsBuild bytes segmentCount bytesPerSegment bitsPerSegment start 0
        negExt prefixLength =
      toSegmentsBuild (bytes.drop start) segmentCount bytesPerSegment
        bitsPerSegment 0 0 negExt prefixLength := by
  unfold toSegmentsBuild
  apply List.map_eq_map_iff.mpr
  intro s _
  have hv : toSegmentsSegVal bytes start 0 negExt bytesPerSegment s =
      toSegmentsSegVal (bytes.drop start) 0 0 negExt bytesPerSegment s := by
    unfold toSegmentsSegVal
    apply congrArg
    apply List.map_eq_map_iff.mpr
    intro t _
    simp only [Nat.not_lt_zero, if_false, Nat.sub_zero, Nat.zero_add]
    rw [getD_drop_aux]
  rw [hv]

/-- C5: two's-complement ingestion of a byte array longer than the family's
expected byte count succeeds iff every excess leading byte is a legal sign
extension — all `0x00`, or all `0xff` when the most significant bit of the
first retained byte is 1.  On success the excess bytes are dropped and the
remaining (trailing) bytes feed the segments, least-significant last; any
other excess byte content fails with the ValueExceedsSize error kind. -/
theorem toSegments_excess_spec (bytes : List Nat)
    (segmentCount bytesPerSegment bitsPerSegment : Nat) (prefixLength : Option Nat)
    (hlong : segmentCount * bytesPerSegment < bytes.length) :
    ((∃ out, toSegments bytes segmentCount bytesPerSegment bitsPerSegment
        (segmentCount * bytesPerSegment) prefixLength = .ok out) ↔
      excessLegal bytes (segmentCount * bytesPerSegment))
    ∧ (excessLegal bytes (segmentCount * bytesPerSegment) →
        toSegments bytes segmentCount bytesPerSegment bitsPerSegment
            (segmentCount * bytesPerSegment) prefixLength =
          .ok (toSegmentsBuild
            (bytes.drop (bytes.length - segmentCount * bytesPerSegment))
            segmentCount bytesPerSegment bitsPerSegment 0 0
            (bytes.getD (bytes.length - segmentCount * bytesPerSegment) 0 >>> 7 != 0)
            prefixLength))
    ∧ (¬ excessLegal bytes (segmentCount * bytesPerSegment) →
        ∃ v, toSegments bytes segmentCount bytesPerSegment bitsPerSegment
            (segmentCount * bytesPerSegment) prefixLength =
          .error (.exceedsSize v)) := by
  have hguard := excess_guard_iff bytes (segmentCount * bytesPerSegment) hlong
  have hok : excessLegal bytes (segmentCount * bytesPerSegment) →
      toSegments bytes segmentCount bytesPerSegment bitsPerSegment
          (segmentCount * bytesPerSegment) prefixLength =
        .ok (toSegmentsBuild
          (bytes.drop (bytes.length - segmentCount * bytesPerSegment))
          segmentCount bytesPerSegment bitsPerSegment 0 0
          (bytes.getD (bytes.length - segmentCount * bytesPerSegment) 0 >>> 7 != 0)
          prefixLength) := by
    intro hleg
    obtain ⟨hsign, hall⟩ := hguard.mpr hleg
    rw [toSegments, if_pos hlong, if_pos hsign, if_pos hall, toSegmentsBuild_drop]
  have herr : ¬ excessLegal bytes (segmentCount * bytesPerSegment) →
      ∃ v, toSegments bytes segmentCount bytesPerSegment bitsPerSegment
          (segmentCount * bytesPerSegment) prefixLength =
        .error (.exceedsSize v) := by
    intro hleg
    refine ⟨bytes.getD (bytes.length - segmentCount * bytesPerSegment - 1) 0, ?_⟩
    by_cases hsign : (bytes.getD (bytes.length - segmentCount * bytesPerSegment - 1) 0 = 0
        ∨ (bytes.getD (bytes.length - segmentCount * bytesPerSegment) 0 >>> 7 ≠ 0
           ∧ bytes.getD (bytes.length - segmentCount * bytesPerSegment - 1) 0 = 255))
    · have hall : ¬ ∀ b ∈ bytes.take (bytes.length - segmentCount * bytesPerSegment - 1),
          b = bytes.getD (bytes.length - segmentCount * bytesPerSegment - 1) 0 := by
        intro hall
        exact hleg (hguard.mp ⟨hsign, hall⟩)
      rw [toSegments, if_pos hlong, if_pos hsign, if_neg hall]
    · rw [toSegments, if_pos hlong, if_neg hsign]
  refine ⟨⟨?_, fun hleg => ⟨_, hok hleg⟩⟩, hok, herr⟩
  rintro ⟨out, hout⟩
  by_contra hleg
  obtain ⟨v, hv⟩ := herr hleg
  rw [hout] at hv
  simp at hv

/-- C5 witness: the 6-byte array `[0, 0, 1, 2, 3, 4]` ingested as IPv4 (4
segments of 1 byte) is legal — the two excess leading bytes are `0x00` — and
yields the segments of `1.2.3.4`. -/
theorem toSegments_excess_spec_witness :
    excessLegal [0, 0, 1, 2, 3, 4] (4 * 1)
    ∧ toSegments [0, 0, 1, 2, 3, 4] 4 1 8 (4 * 1) none =
        .ok [⟨1, 1, none⟩, ⟨2, 2, none⟩, ⟨3, 3, none⟩, ⟨4, 4, none⟩] := by
  have hleg : excessLegal [0, 0, 1, 2, 3, 4] (4 * 1) := by
    left
    decide
  refine ⟨hleg, ?_⟩
  have h := (toSegments_excess_spec [0, 0, 1, 2, 3, 4] 4 1 8 none (by decide)).2.1 hleg
  rw [h]
  exact congrArg Except.ok (by decide)

/-- C6: converting an address to a sequential range yields the range bounded
by the address's lower and upper single values with the prefix length
removed and, for IPv6, the zone removed — the endpoints carry no prefix and
no zone even when the source address was prefixed or zoned. -/
theorem toSequentialRange_strips (a4 : IPv4AddrVals) (a6 : IPv6AddrVals) :
    (ipv4ToSequentialRange a4).lower = ⟨a4.segs.map (fun p => (p.1, p.1)), none⟩
    ∧ (ipv4ToSequentialRange a4).upper = ⟨a4.segs.map (fun p => (p.2, p.2)), none⟩
    ∧ (ipv6ToSequentialRange a6).lower = ⟨a6.segs.map (fun p => (p.1, p.1)), none, ""⟩
    ∧ (ipv6ToSequentialRange a6).upper = ⟨a6.segs.map (fun p => (p.2, p.2)), none, ""⟩ := by
  refine ⟨rfl, rfl, ?_, ?_⟩ <;>
    simp [ipv6ToSequentialRange, IPv6AddrVals.withoutPrefixLen,
      IPv6AddrVals.withoutZone, IPv6AddrVals.getLower, IPv6AddrVals.getUpper] <;>
    split_ifs <;> simp_all

/-- C9: `IPv6Address.Equals` returns true only when the other address is
IPv6 with identical segment values and the identical zone, and `Contains`
likewise requires the identical zone; two IPv6 addresses with the same
segment values but different zones are neither Equal nor does either
Contain the other. -/
theorem ipv6Equals_requires_zone (a other : GenAddr) :
    (ipv6Equals a other = true →
      other.typ = .ipv6Type ∧ other.segs = a.segs ∧ other.zone = a.zone)
    ∧ (ipv6Contains a other = true → other.zone = a.zone)
    ∧ (∀ (segs : List (Nat × Nat)) (z1 z2 : String), z1 ≠ z2 →
        ipv6Equals ⟨.ipv6Type, segs, z1⟩ ⟨.ipv6Type, segs, z2⟩ = false
        ∧ ipv6Contains ⟨.ipv6Type, segs, z1⟩ ⟨.ipv6Type, segs, z2⟩ = false) := by
  refine ⟨?_, ?_, ?_⟩
  · intro h
    simp only [ipv6Equals, sameCountTypeEquals, isSameZone, Bool.and_eq_true,
      beq_iff_eq] at h
    exact ⟨h.1.1, h.1.2.symm, h.2.symm⟩
  · intro h
    simp only [ipv6Contains, isSameZone, Bool.and_eq_true, beq_iff_eq] at h
    exact h.2.symm
  · intro segs z1 z2 hz
    constructor
    · simp [ipv6Equals, isSameZone, hz]
    · simp [ipv6Contains, isSameZone, hz]

/-- C9 witness: a zoned loopback-like address equals itself (discharging the
hypotheses of the positive directions), and the same 128 bits with zones
`eth0` and the empty zone are neither Equal nor Contain each other. -/
theorem ipv6Equals_requires_zone_witness :
    ((⟨AddrType.ipv6Type, [(0, 0), (0, 0), (0, 0), (0, 0), (0, 0), (0, 0), (0, 0), (1, 1)],
        "eth0"⟩ : GenAddr).typ = .ipv6Type)
    ∧ ipv6Equals
        ⟨.ipv6Type, [(0, 0), (0, 0), (0, 0), (0, 0), (0, 0), (0, 0), (0, 0), (1, 1)], "eth0"⟩
        ⟨.ipv6Type, [(0, 0), (0, 0), (0, 0), (0, 0), (0, 0), (0, 0), (0, 0), (1, 1)], ""⟩ = false
    ∧ ipv6Contains
        ⟨.ipv6Type, [(0, 0), (0, 0), (0, 0), (0, 0), (0, 0), (0, 0), (0, 0), (1, 1)], "eth0"⟩
        ⟨.ipv6Type, [(0, 0), (0, 0), (0, 0), (0, 0), (0, 0), (0, 0), (0, 0), (1, 1)], ""⟩ = false := by
  refine ⟨?_, ?_, ?_⟩
  · exact ((ipv6Equals_requires_zone
      ⟨.ipv6Type, [(0, 0), (0, 0), (0, 0), (0, 0), (0, 0), (0, 0), (0, 0), (1, 1)], "eth0"⟩
      ⟨.ipv6Type, [(0, 0), (0, 0), (0, 0), (0, 0), (0, 0), (0, 0), (0, 0), (1, 1)], "eth0"⟩).1
      (by decide)).1
  · exact ((ipv6Equals_requires_zone
      ⟨.ipv6Type, [], "x"⟩ ⟨.ipv6Type, [], "x"⟩).2.2
      [(0, 0), (0, 0), (0, 0), (0, 0), (0, 0), (0, 0), (0, 0), (1, 1)] "eth0" ""
      (by decide)).1
  · exact ((ipv6Equals_requires_zone
      ⟨.ipv6Type, [], "x"⟩ ⟨.ipv6Type, [], "x"⟩).2.2
      [(0, 0), (0, 0), (0, 0), (0, 0), (0, 0), (0, 0), (0, 0), (1, 1)] "eth0" ""
      (by decide)).2

/-- C8: a default-constructed (nil-section) IPv4 or IPv6 address behaves
identically to the canonical all-zeros address of its family with no prefix
and no zone: `init` substitutes the canonical zero address, so every query
reading the receiver through `init` agrees on both, and the source's direct
nil-checking predicates (IsLoopback, IsUnspecified, IsAnyLocal) also agree
on both. -/
theorem zero_value_behaves_as_zero_address :
    initIPv4 ⟨none⟩ = zeroIPv4Addr
    ∧ (∀ (α : Type) (f : IPv4AddressGo → α),
        f (initIPv4 ⟨none⟩) = f (initIPv4 zeroIPv4Addr))
    ∧ ipv4IsLoopback ⟨none⟩ = ipv4IsLoopback zeroIPv4Addr
    ∧ ipv4IsUnspecified ⟨none⟩ = ipv4IsUnspecified zeroIPv4Addr
    ∧ ipv4IsAnyLocal ⟨none⟩ = ipv4IsAnyLocal zeroIPv4Addr
    ∧ initIPv6 ⟨none, ""⟩ = zeroIPv6Addr
    ∧ (∀ (α : Type) (f : IPv6AddressGo → α),
        f (initIPv6 ⟨none, ""⟩) = f (initIPv6 zeroIPv6Addr))
    ∧ ipv6IsLoopback ⟨none, ""⟩ = ipv6IsLoopback zeroIPv6Addr
    ∧ zeroIPv4Addr.sect = some ⟨List.replicate 4 ⟨0, 0, none⟩, none, false⟩
    ∧ zeroIPv6Addr.zone = "" := by
  refine ⟨rfl, ?_, by decide, by decide, by decide, rfl, ?_, by decide, rfl, rfl⟩
  · intro α f
    rfl
  · intro α f
    rfl

end IPAddr
